import Mathlib

/-
Verification of the plan-execution bridge of PelotonDB
(src/backend/bridge/dml/executor/plan_executor.cpp).

The development shallowly embeds the four functions of that translation
unit — BuildExecutorTree, CleanExecutorTree, PlanExecutor::AddMaterialization
and PlanExecutor::ExecutePlan — as pure Lean functions, and proves the
behavioural properties stated in the specification.

Modelling decisions, justified against the source:

* Plan nodes (planner::AbstractPlan) are an inductive tree tagged with the
  PlanNodeType enumeration.  Only the tags that appear in the switch of
  BuildExecutorTree are distinguished; every tag that falls into the
  switch's `default:` arm behaves identically, so one constructor `other`
  stands for all of them.

* Executors (executor::AbstractExecutor) carry the executor subclass that
  was constructed, the back-reference to the originating plan node
  (GetRawNode, nullable), whether a dedicated ExecutorContext was passed
  to the constructor, and the ordered child list (AddChild appends).

* BuildExecutorTree mutates the executor passed as `root` in place:
  it attaches the freshly constructed `child_executor` to `root` and then
  the recursion over `plan->GetChildren()` mutates `child_executor`, which
  already sits below `root`.  The pure equivalent builds the complete
  subtree for the current plan node first (`buildNode`) and then attaches
  it.  Two facts from the source justify this restructuring: (a) when
  `child_executor` is non-null, every loop iteration
  `child_executor = BuildExecutorTree(child_executor, child, ...)` returns
  its non-null first argument unchanged, so the loop keeps attaching the
  children's subtrees directly under the current node's executor, in
  order; (b) when the current tag constructs no executor, `child_executor`
  enters the loop as null, so the children's executors are threaded into
  one another but are never attached to `root`, and `root` (the local
  variable, never reassigned by the loop) is returned as it was — those
  subtrees are dropped from the result (and leak).  The pair returned by
  the Lean functions also counts the `new executor::ExecutorContext(...)`
  allocations, one per visited plan node, performed before the switch.

* CleanExecutorTree is modelled as the sequence of `delete` events it
  performs; a node is identified by its path (list of child indices) from
  the root of the tree being destroyed.

* ExecutePlan's collaborators that live outside this translation unit
  (the transaction manager, the executors' Init/Execute/GetOutput, and
  TupleTransformer::GetPostgresTuple) are modelled from the spec: the
  compiled tree's runtime behaviour is an oracle (did Init succeed, the
  successive results of Execute/GetOutput, and the transaction Result the
  operators left behind), tuple conversion is an abstract partial
  function, and commit/abort are recorded as events.  Per the spec's
  transaction interface, commit and abort do not themselves rewrite the
  transaction's recorded Result, and a transaction started on demand
  (StartPGTransaction) begins with Result Success.

* The source dereferences without a null check in two places: `root->
  GetRawNode()->GetPlanNodeType()` in AddMaterialization and
  `executor_tree->Init()` in ExecutePlan.  Both are modelled as an
  explicit crash outcome (`ExecResult.nullDeref`) rather than being
  defined away.
-/

namespace PelotonBridge

/-- Plan node tags distinguished by the switch in BuildExecutorTree.
`other` stands for every further tag of the source enumeration: all of
them reach the switch's `default:` arm and are treated alike. -/
inductive PlanNodeType where
  | invalid
  | seqscan
  | indexscan
  | insert
  | delete
  | update
  | limit
  | nestloop
  | mergejoin
  | projection
  | materialize
  | aggregate_v2
  | orderby
  | other
deriving DecidableEq, Repr

/-- A plan node (planner::AbstractPlan): a tag and an ordered child list. -/
inductive AbstractPlan where
  | mk (ty : PlanNodeType) (children : List AbstractPlan)

/-- GetPlanNodeType of a plan node. -/
def AbstractPlan.GetPlanNodeType : AbstractPlan → PlanNodeType
  | .mk ty _ => ty

/-- GetChildren of a plan node. -/
def AbstractPlan.GetChildren : AbstractPlan → List AbstractPlan
  | .mk _ cs => cs

/-- The executor subclass constructed by the switch in BuildExecutorTree
(plus the MaterializationExecutor built by AddMaterialization). -/
inductive ExecutorType where
  | seqscan
  | indexscan
  | insert
  | delete
  | update
  | limit
  | nestloop
  | mergejoin
  | projection
  | materialize
  | aggregate
  | orderby
deriving DecidableEq, Repr

/-- An executor node (executor::AbstractExecutor): the subclass that was
constructed, the originating plan node passed to the constructor
(GetRawNode, nullable), whether a dedicated ExecutorContext was passed
(the AddMaterialization wrapper receives nullptr), and the ordered child
list built up by AddChild. -/
inductive AbstractExecutor where
  | mk (ty : ExecutorType) (rawNode : Option AbstractPlan) (hasContext : Bool)
      (children : List AbstractExecutor)

/-- GetRawNode of an executor. -/
def AbstractExecutor.GetRawNode : AbstractExecutor → Option AbstractPlan
  | .mk _ rn _ _ => rn

/-- GetChildren of an executor. -/
def AbstractExecutor.GetChildren : AbstractExecutor → List AbstractExecutor
  | .mk _ _ _ cs => cs

/-- AddChild appends a child executor at the end of the child list. -/
def AbstractExecutor.AddChild : AbstractExecutor → AbstractExecutor → AbstractExecutor
  | .mk ty rn hc cs, c => .mk ty rn hc (cs ++ [c])

/-- The switch of BuildExecutorTree: which executor subclass is
constructed for a plan tag.  `none` for PLAN_NODE_TYPE_INVALID and for
the `default:` arm (unsupported tags): no executor is constructed, only
a diagnostic is logged. -/
def mkChildExecutor : PlanNodeType → Option ExecutorType
  | .invalid => none
  | .seqscan => some .seqscan
  | .indexscan => some .indexscan
  | .insert => some .insert
  | .delete => some .delete
  | .update => some .update
  | .limit => some .limit
  | .nestloop => some .nestloop
  | .mergejoin => some .mergejoin
  | .projection => some .projection
  | .materialize => some .materialize
  | .aggregate_v2 => some .aggregate
  | .orderby => some .orderby
  | .other => none

mutual

/-- One visit of BuildExecutorTree to a non-null plan node, returning the
complete executor subtree this visit contributes (none when the tag
constructs no executor — its children's executors are then never attached
to the caller's root, see the header comment) and the number of
ExecutorContext allocations performed in the visit's subtree.  The
context is allocated before the switch, so it is counted for every
visited node, whatever the tag. -/
def buildNode : AbstractPlan → Option AbstractExecutor × Nat
  | .mk ty cs =>
    let sub := buildChildren cs
    match mkChildExecutor ty with
    | some ety => (some (AbstractExecutor.mk ety (some (.mk ty cs)) true sub.1), 1 + sub.2)
    | none => (none, 1 + sub.2)

/-- The loop over plan->GetChildren(): each child that yields an executor
subtree is attached in order; children that yield none contribute no
executor.  Context allocations are accumulated across all children. -/
def buildChildren : List AbstractPlan → List AbstractExecutor × Nat
  | [] => ([], 0)
  | c :: cs =>
    let r := buildNode c
    let rs := buildChildren cs
    (r.1.toList ++ rs.1, r.2 + rs.2)

end

/-- BuildExecutorTree.  First component: the returned root.  Second
component: the number of ExecutorContext allocations the call performs.
A null plan returns the incoming root untouched; otherwise the visit's
subtree (if any) is attached to the incoming root, or becomes the root
when none was passed. -/
def BuildExecutorTree (root : Option AbstractExecutor) (plan : Option AbstractPlan) :
    Option AbstractExecutor × Nat :=
  match plan with
  | none => (root, 0)
  | some p =>
    let built := buildNode p
    match built.1, root with
    | some e, some r => (some (r.AddChild e), built.2)
    | some e, none => (some e, built.2)
    | none, _ => (root, built.2)

mutual

/-- The `delete` events CleanExecutorTree performs on the subtree rooted
at path `p`: recurse into the children first, then delete self. -/
def destroyNode (p : List Nat) : AbstractExecutor → List (List Nat)
  | .mk _ _ _ cs => destroyChildren p 0 cs ++ [p]

/-- The `delete` events for the children of the node at path `p`,
starting at child index `i`. -/
def destroyChildren (p : List Nat) (i : Nat) : List AbstractExecutor → List (List Nat)
  | [] => []
  | c :: cs => destroyNode (p ++ [i]) c ++ destroyChildren p (i + 1) cs

end

/-- CleanExecutorTree: the sequence of `delete` events, in order.  A null
root performs no action. -/
def CleanExecutorTree : Option AbstractExecutor → List (List Nat)
  | none => []
  | some e => destroyNode [] e

mutual

/-- The paths of all nodes of an executor subtree rooted at path `p`,
in preorder. -/
def nodePaths (p : List Nat) : AbstractExecutor → List (List Nat)
  | .mk _ _ _ cs => p :: nodePathsChildren p 0 cs

/-- The paths of all nodes of the children of the node at path `p`,
starting at child index `i`. -/
def nodePathsChildren (p : List Nat) (i : Nat) : List AbstractExecutor → List (List Nat)
  | [] => []
  | c :: cs => nodePaths (p ++ [i]) c ++ nodePathsChildren p (i + 1) cs

end

/-- PlanExecutor::AddMaterialization.  A null root is returned unchanged
(as null).  Otherwise the source reads
`root->GetRawNode()->GetPlanNodeType()` without a null check; a root
whose raw node is null would be a null dereference, modelled as the
outer `none`.  When the tag is one of MERGEJOIN, NESTLOOP, SEQSCAN,
INDEXSCAN, LIMIT, a MaterializationExecutor is constructed with null
plan node and null context and the old root becomes its sole child;
otherwise the root is returned unchanged. -/
def AddMaterialization : Option AbstractExecutor → Option (Option AbstractExecutor)
  | none => some none
  | some root =>
    match root.GetRawNode with
    | none => none
    | some rawNode =>
      match rawNode.GetPlanNodeType with
      | .mergejoin | .nestloop | .seqscan | .indexscan | .limit =>
        some (some ((AbstractExecutor.mk .materialize none false []).AddChild root))
      | _ => some (some root)

/-- Modelled from the spec: the transaction's terminal Result state,
"Success or Failure, set by any operator in the tree during execution"
(the concurrency machinery lives outside this translation unit). -/
inductive Result where
  | success
  | failure
deriving DecidableEq, Repr

/-- The calls ExecutePlan makes on the transaction boundary interface,
recorded in order: GetPGTransaction, StartPGTransaction, SetResult,
CommitTransaction, AbortTransaction. -/
inductive TxnEffect where
  | getTransaction
  | startTransaction
  | setResult (r : Result)
  | commit
  | abort
deriving DecidableEq, Repr

/-- The caller-visible Peloton_Status fields ExecutePlan writes:
m_result_slots (the accumulated host rows) and m_result (the final
transaction Result). -/
structure PelotonStatus (Slot : Type) where
  m_result_slots : List Slot
  m_result : Result
deriving DecidableEq, Repr

/-- Modelled from the spec: the runtime behaviour of the compiled
executor tree, whose Init/Execute/GetOutput implementations live outside
this translation unit.  `initOk` is the result of Init(); `script` lists
the successive results of Execute() paired with what GetOutput() would
return after that call (none models a null tile, a non-null tile is the
tuple sequence its base tile yields in iteration order); `resultAfter`
is the transaction Result the operators have left recorded once the pull
loop has finished. -/
structure ExecBehavior (Tuple : Type) where
  initOk : Bool
  script : List (Bool × Option (List Tuple))
  resultAfter : Result

/-- What a completed (non-crashing) ExecutePlan call did: the final
Peloton_Status, the transaction calls in order, how many times Execute()
was called, and the `delete` events of the final CleanExecutorTree. -/
structure ExecOutcome (Slot : Type) where
  pstatus : PelotonStatus Slot
  effects : List TxnEffect
  executeCalls : Nat
  destroyed : List (List Nat)
deriving DecidableEq, Repr

/-- The result of an ExecutePlan call: normal completion, a null-pointer
dereference (the source checks neither `executor_tree` before calling
Init() nor GetRawNode() inside AddMaterialization), or an execution
whose pull loop never sees Execute() return false. -/
inductive ExecResult (Slot : Type) where
  | nullDeref
  | divergent
  | ok (o : ExecOutcome Slot)
deriving DecidableEq, Repr

/-- The inner while loop over one tile: `tile_itr.Next(tuple)` walks the
base tile forward; each tuple is handed to
TupleTransformer::GetPostgresTuple (modelled by `convert`); a null slot
is dropped, a non-null slot is appended (`lappend`) to the accumulated
list. -/
def scanTile {Tuple Slot : Type} (convert : Tuple → Option Slot) :
    List Tuple → List Slot → List Slot
  | [], slots => slots
  | t :: ts, slots =>
    match convert t with
    | some s => scanTile convert ts (slots ++ [s])
    | none => scanTile convert ts slots

/-- The pull loop of ExecutePlan, driven by the behaviour script: each
step is one Execute() call.  On false the loop stops and returns the
accumulated slots and the number of Execute() calls made; on true with a
null tile it continues without extracting rows; on true with a tile it
scans the tile and continues.  A script that runs out without a false
models an execution that never stops pulling (`none`). -/
def pullLoop {Tuple Slot : Type} (convert : Tuple → Option Slot) :
    List (Bool × Option (List Tuple)) → List Slot → Option (List Slot × Nat)
  | [], _ => none
  | (false, _) :: _, slots => some (slots, 1)
  | (true, none) :: rest, slots =>
    (pullLoop convert rest slots).map (fun r => (r.1, r.2 + 1))
  | (true, some tile) :: rest, slots =>
    (pullLoop convert rest (scanTile convert tile slots)).map (fun r => (r.1, r.2 + 1))

/-- The commit-or-abort decision at the cleanup label: when the
transaction is owned by this call or initialization failed, inspect the
recorded Result and commit on Success, abort otherwise; else do
nothing. -/
def finalizeEffects (shouldClose : Bool) (txnResult : Result) : List TxnEffect :=
  if shouldClose then
    match txnResult with
    | .success => [TxnEffect.commit]
    | .failure => [TxnEffect.abort]
  else []

/-- PlanExecutor::ExecutePlan.  `existingTxn` is what
GetPGTransaction(txn_id) finds: the pre-existing transaction's current
Result, or none (in which case StartPGTransaction creates one; modelled
from the spec, a fresh transaction's Result starts as Success).  A null
plan returns at once, before any transaction call.  Otherwise the
executor tree is built and the materialization policy applied; Init() is
then called on the root with no null check — a null root is a null
dereference.  On Init() failure the transaction Result is set to
Failure and control jumps to cleanup, skipping the m_result_slots write.
Otherwise the pull loop runs.  Cleanup commits or aborts exactly when
the transaction is single-statement or initialization failed, tears the
tree down unconditionally, and reports the transaction's Result
(commit/abort do not rewrite it, per the spec's boundary interface). -/
def ExecutePlan {Tuple Slot : Type} (convert : Tuple → Option Slot)
    (plan : Option AbstractPlan) (behavior : ExecBehavior Tuple)
    (existingTxn : Option Result) (pstatus : PelotonStatus Slot) :
    ExecResult Slot :=
  match plan with
  | none => .ok { pstatus := pstatus, effects := [], executeCalls := 0, destroyed := [] }
  | some p =>
    let single_statement_txn := existingTxn.isNone
    let lookupEffects :=
      TxnEffect.getTransaction ::
        (if single_statement_txn then [TxnEffect.startTransaction] else [])
    match AddMaterialization (BuildExecutorTree none (some p)).1 with
    | none => .nullDeref
    | some none => .nullDeref
    | some (some tree) =>
      if behavior.initOk then
        match pullLoop convert behavior.script [] with
        | none => .divergent
        | some (slots, n) =>
          .ok { pstatus := { m_result_slots := slots, m_result := behavior.resultAfter },
                effects := lookupEffects ++
                  finalizeEffects (single_statement_txn || false) behavior.resultAfter,
                executeCalls := n,
                destroyed := CleanExecutorTree (some tree) }
      else
        .ok { pstatus := { m_result_slots := pstatus.m_result_slots,
                           m_result := Result.failure },
              effects := lookupEffects ++ [TxnEffect.setResult .failure] ++
                finalizeEffects (single_statement_txn || true) Result.failure,
              executeCalls := 0,
              destroyed := CleanExecutorTree (some tree) }

/-! Vocabulary for stating the specification's properties. -/

mutual

/-- Number of nodes of a plan tree. -/
def planSize : AbstractPlan → Nat
  | .mk _ cs => 1 + planSizeList cs

/-- Total number of nodes of a list of plan trees. -/
def planSizeList : List AbstractPlan → Nat
  | [] => 0
  | c :: cs => planSize c + planSizeList cs

end

/-- A bare tree shape: node arities and child order, nothing else. -/
inductive TreeSkel where
  | node : List TreeSkel → TreeSkel

mutual

/-- The shape of a plan tree. -/
def planSkel : AbstractPlan → TreeSkel
  | .mk _ cs => .node (planSkelList cs)

/-- The shapes of a list of plan trees. -/
def planSkelList : List AbstractPlan → List TreeSkel
  | [] => []
  | c :: cs => planSkel c :: planSkelList cs

end

mutual

/-- The shape of an executor tree. -/
def execSkel : AbstractExecutor → TreeSkel
  | .mk _ _ _ cs => .node (execSkelList cs)

/-- The shapes of a list of executor trees. -/
def execSkelList : List AbstractExecutor → List TreeSkel
  | [] => []
  | c :: cs => execSkel c :: execSkelList cs

end

mutual

/-- Number of nodes of a tree shape. -/
def skelSize : TreeSkel → Nat
  | .node cs => 1 + skelSizeList cs

/-- Total number of nodes of a list of tree shapes. -/
def skelSizeList : List TreeSkel → Nat
  | [] => 0
  | c :: cs => skelSize c + skelSizeList cs

end

/-- Number of nodes of an executor tree. -/
def execSize (e : AbstractExecutor) : Nat :=
  skelSize (execSkel e)

mutual

/-- Every tag of the plan tree is one the compiler's switch constructs an
executor for. -/
def allSupported : AbstractPlan → Bool
  | .mk ty cs => (mkChildExecutor ty).isSome && allSupportedList cs

/-- allSupported on every member of a list of plan trees. -/
def allSupportedList : List AbstractPlan → Bool
  | [] => true
  | c :: cs => allSupported c && allSupportedList cs

end

mutual

/-- Every tag of the plan tree is one the compiler's switch constructs no
executor for (Invalid or an unsupported tag). -/
def allUnsupported : AbstractPlan → Bool
  | .mk ty cs => (mkChildExecutor ty).isNone && allUnsupportedList cs

/-- allUnsupported on every member of a list of plan trees. -/
def allUnsupportedList : List AbstractPlan → Bool
  | [] => true
  | c :: cs => allUnsupported c && allUnsupportedList cs

end

/-- Plan tags whose compiled root the materialization policy wraps. -/
def materializedTags : List PlanNodeType :=
  [.mergejoin, .nestloop, .seqscan, .indexscan, .limit]

/-- The rows one GetOutput() result contributes: none for a null tile,
the convertible tuples in iteration order for a non-null one. -/
def tileRows {Tuple Slot : Type} (convert : Tuple → Option Slot) :
    Option (List Tuple) → List Slot
  | none => []
  | some tile => tile.filterMap convert

/-- The rows a sequence of pulls contributes, in pull order. -/
def pulledRows {Tuple Slot : Type} (convert : Tuple → Option Slot)
    (script : List (Bool × Option (List Tuple))) : List Slot :=
  (script.map (fun step => tileRows convert step.2)).flatten

/-- Whether a transaction call closes the transaction. -/
def isCommitOrAbort : TxnEffect → Bool
  | .commit => true
  | .abort => true
  | _ => false

/-- How many commit-or-abort calls an effect sequence contains. -/
def countCloses (l : List TxnEffect) : Nat :=
  (l.filter isCommitOrAbort).length

/-- Path `q` is a proper ancestor of path `r`. -/
def properAncestor (q r : List Nat) : Prop :=
  q ≠ r ∧ ∃ s, q ++ s = r

/-- In list `l`, some occurrence of `a` comes before some occurrence of
`b`. -/
def occursBefore {α : Type} (l : List α) (a b : α) : Prop :=
  ∃ l1 l2 l3, l = l1 ++ a :: (l2 ++ b :: l3)

/-! Helper lemmas. -/

theorem scanTile_eq {Tuple Slot : Type} (convert : Tuple → Option Slot) :
    ∀ (ts : List Tuple) (acc : List Slot),
      scanTile convert ts acc = acc ++ ts.filterMap convert := by
  intro ts
  induction ts with
  | nil => intro acc; simp [scanTile]
  | cons t ts ih =>
    intro acc
    cases h : convert t with
    | none => simp [scanTile, h, ih]
    | some s => simp [scanTile, h, ih]

theorem pulledRows_cons {Tuple Slot : Type} (convert : Tuple → Option Slot)
    (x : Bool × Option (List Tuple)) (xs : List (Bool × Option (List Tuple))) :
    pulledRows convert (x :: xs) = tileRows convert x.2 ++ pulledRows convert xs := by
  simp [pulledRows]

theorem pullLoop_no_false {Tuple Slot : Type} (convert : Tuple → Option Slot) :
    ∀ (script : List (Bool × Option (List Tuple))) (acc : List Slot),
      (∀ step ∈ script, step.1 = true) → pullLoop convert script acc = none := by
  intro script
  induction script with
  | nil => intro acc _; simp [pullLoop]
  | cons x xs ih =>
    intro acc hall
    obtain ⟨b, tile⟩ := x
    have hb : b = true := hall (b, tile) (by simp)
    subst hb
    cases tile with
    | none => simp [pullLoop, ih acc (fun s hs => hall s (by simp [hs]))]
    | some tl =>
      simp [pullLoop, ih (scanTile convert tl acc) (fun s hs => hall s (by simp [hs]))]

theorem pullLoop_first_false {Tuple Slot : Type} (convert : Tuple → Option Slot) :
    ∀ (steps : List (Bool × Option (List Tuple))) (t : Option (List Tuple))
      (rest : List (Bool × Option (List Tuple))) (acc : List Slot),
      (∀ step ∈ steps, step.1 = true) →
      pullLoop convert (steps ++ (false, t) :: rest) acc =
        some (acc ++ pulledRows convert steps, steps.length + 1) := by
  intro steps
  induction steps with
  | nil => intro t rest acc _; simp [pullLoop, pulledRows]
  | cons x xs ih =>
    intro t rest acc hall
    obtain ⟨b, tile⟩ := x
    have hb : b = true := hall (b, tile) (by simp)
    subst hb
    have hxs : ∀ step ∈ xs, step.1 = true := fun s hs => hall s (by simp [hs])
    cases tile with
    | none =>
      simp [pullLoop, ih t rest acc hxs, pulledRows_cons, tileRows]
    | some tl =>
      have h := ih t rest (acc ++ tl.filterMap convert) hxs
      simp [pullLoop, scanTile_eq, h, pulledRows_cons, tileRows]

/-! Claim theorems. -/

/-- C6: in the pull loop, whenever Execute() returns true and GetOutput()
yields a null batch, the driver extracts no rows from that pull and
continues pulling; the loop terminates exactly when Execute() returns
false, and only then does the driver stop pulling.  First conjunct: a
script on which Execute() never returns false never stops.  Second
conjunct: the loop stops at exactly the first false, having made one
Execute() call per preceding step plus the final one, and the rows
gathered are exactly the per-step rows in order — a step with a null
tile contributing none (tileRows of none is empty) while still being
pulled past. -/
theorem pull_loop_stops_exactly_at_false {Tuple Slot : Type}
    (convert : Tuple → Option Slot) :
    (∀ (script : List (Bool × Option (List Tuple))) (acc : List Slot),
       (∀ step ∈ script, step.1 = true) → pullLoop convert script acc = none) ∧
    (∀ (steps : List (Bool × Option (List Tuple))) (t : Option (List Tuple))
       (rest : List (Bool × Option (List Tuple))) (acc : List Slot),
       (∀ step ∈ steps, step.1 = true) →
       pullLoop convert (steps ++ (false, t) :: rest) acc =
         some (acc ++ pulledRows convert steps, steps.length + 1)) :=
  ⟨pullLoop_no_false convert, pullLoop_first_false convert⟩

/-- Witness for C6 at a concrete script: two successful pulls (one with a
null tile, one with a two-tuple tile) followed by a false stop the loop
after three Execute() calls with the tile's convertible rows, and an
all-true script never stops. -/
theorem pull_loop_stops_exactly_at_false_witness :
    pullLoop (fun n : Nat => some n)
        ([(true, none), (true, some [5, 7])] ++ (false, none) :: [(true, none)]) [] =
      some ([5, 7], 3) ∧
    pullLoop (fun n : Nat => some n) [(true, some [5, 7])] [] = none := by
  constructor
  · have h := (pull_loop_stops_exactly_at_false (fun n : Nat => some n)).2
      [(true, none), (true, some [5, 7])] none [(true, none)] [] (by decide)
    simpa [pulledRows, tileRows] using h
  · exact (pull_loop_stops_exactly_at_false (fun n : Nat => some n)).1
      [(true, some [5, 7])] [] (by decide)

/-- C7: for every row iterated out of a non-null batch, a failed
conversion omits the row and continues (first conjunct), a successful
conversion appends the converted row at the end of the accumulator
(second conjunct); the rows appended are exactly the convertible rows in
forward storage order within each batch (third conjunct) and in batch
pull order across batches (fourth conjunct). -/
theorem rows_filtered_in_encounter_order {Tuple Slot : Type}
    (convert : Tuple → Option Slot) :
    (∀ (t : Tuple) (ts : List Tuple) (acc : List Slot), convert t = none →
       scanTile convert (t :: ts) acc = scanTile convert ts acc) ∧
    (∀ (t : Tuple) (s : Slot) (ts : List Tuple) (acc : List Slot), convert t = some s →
       scanTile convert (t :: ts) acc = scanTile convert ts (acc ++ [s])) ∧
    (∀ (ts : List Tuple) (acc : List Slot),
       scanTile convert ts acc = acc ++ ts.filterMap convert) ∧
    (∀ (steps : List (Bool × Option (List Tuple))) (t : Option (List Tuple))
       (rest : List (Bool × Option (List Tuple))) (acc : List Slot),
       (∀ step ∈ steps, step.1 = true) →
       pullLoop convert (steps ++ (false, t) :: rest) acc =
         some (acc ++ pulledRows convert steps, steps.length + 1)) := by
  refine ⟨?_, ?_, scanTile_eq convert, pullLoop_first_false convert⟩
  · intro t ts acc h; simp [scanTile, h]
  · intro t s ts acc h; simp [scanTile, h]

/-- Witness for C7 with a conversion that drops odd numbers: the dropped
row 1 leaves the scan unchanged, the kept row 2 is appended at the end,
and a batch scans to its convertible rows in order. -/
theorem rows_filtered_in_encounter_order_witness :
    scanTile (fun n : Nat => if n % 2 = 0 then some n else none) [1, 2] [] =
      scanTile (fun n : Nat => if n % 2 = 0 then some n else none) [2] [] ∧
    scanTile (fun n : Nat => if n % 2 = 0 then some n else none) [2] [] =
      scanTile (fun n : Nat => if n % 2 = 0 then some n else none) [] ([] ++ [2]) ∧
    scanTile (fun n : Nat => if n % 2 = 0 then some n else none) [1, 2, 4] [] =
      [] ++ [1, 2, 4].filterMap (fun n : Nat => if n % 2 = 0 then some n else none) :=
  ⟨(rows_filtered_in_encounter_order _).1 1 [2] [] (by decide),
   (rows_filtered_in_encounter_order _).2.1 2 2 [] [] (by decide),
   (rows_filtered_in_encounter_order _).2.2.1 [1, 2, 4] []⟩

mutual

theorem buildNode_count : ∀ p : AbstractPlan, (buildNode p).2 = planSize p
  | .mk ty cs => by
    cases h : mkChildExecutor ty with
    | some ety => simp [buildNode, h, planSize, buildChildren_count cs]
    | none => simp [buildNode, h, planSize, buildChildren_count cs]

theorem buildChildren_count : ∀ cs : List AbstractPlan, (buildChildren cs).2 = planSizeList cs
  | [] => by simp [buildChildren, planSizeList]
  | c :: cs => by
    simp [buildChildren, planSizeList, buildNode_count c, buildChildren_count cs]

end

theorem buildNode_rawNode (p : AbstractPlan) (e : AbstractExecutor)
    (h : (buildNode p).1 = some e) : e.GetRawNode = some p := by
  obtain ⟨ty, cs⟩ := p
  cases hm : mkChildExecutor ty with
  | some ety =>
    simp [buildNode, hm] at h
    simp [← h, AbstractExecutor.GetRawNode]
  | none => simp [buildNode, hm] at h

theorem buildNode_none_of_unsupported (p : AbstractPlan)
    (h : mkChildExecutor p.GetPlanNodeType = none) : (buildNode p).1 = none := by
  obtain ⟨ty, cs⟩ := p
  simp [AbstractPlan.GetPlanNodeType] at h
  simp [buildNode, h]

/-- C9: during compilation, exactly one ExecutorContext is constructed
for every plan node visited, regardless of the node's tag — including
Invalid and unsupported nodes for which no operator is constructed: the
number of context allocations of a BuildExecutorTree call equals the
node count of the plan tree. -/
theorem context_per_visited_node (p : AbstractPlan) :
    (BuildExecutorTree none (some p)).2 = planSize p := by
  have h := buildNode_count p
  cases hb : (buildNode p).1 <;> simp [BuildExecutorTree, hb, h]

/-- C5: AddMaterialization returns null for a null root; a non-null root
whose originating plan node's tag is one of MergeJoin, NestedLoopJoin,
SequentialScan, IndexScan, Limit is wrapped in a new Materialization
operator with no originating plan node and no dedicated execution
context whose sole child is the root; every other tag returns the root
unchanged. -/
theorem add_materialization_policy :
    AddMaterialization none = some none ∧
    (∀ (root : AbstractExecutor) (rawNode : AbstractPlan),
       root.GetRawNode = some rawNode →
       (rawNode.GetPlanNodeType ∈ materializedTags →
          AddMaterialization (some root) =
            some (some (AbstractExecutor.mk .materialize none false [root]))) ∧
       (rawNode.GetPlanNodeType ∉ materializedTags →
          AddMaterialization (some root) = some (some root))) := by
  refine ⟨rfl, ?_⟩
  intro root rawNode h
  cases hty : rawNode.GetPlanNodeType <;>
    simp [AddMaterialization, h, hty, AbstractExecutor.AddChild, materializedTags]

/-- Witness for C5: a SequentialScan-rooted tree is wrapped, an
Insert-rooted tree is returned unchanged. -/
theorem add_materialization_policy_witness :
    AddMaterialization
        (some (AbstractExecutor.mk .seqscan (some (AbstractPlan.mk .seqscan [])) true [])) =
      some (some (AbstractExecutor.mk .materialize none false
        [AbstractExecutor.mk .seqscan (some (AbstractPlan.mk .seqscan [])) true []])) ∧
    AddMaterialization
        (some (AbstractExecutor.mk .insert (some (AbstractPlan.mk .insert [])) true [])) =
      some (some (AbstractExecutor.mk .insert (some (AbstractPlan.mk .insert [])) true [])) :=
  ⟨(add_materialization_policy.2
      (AbstractExecutor.mk .seqscan (some (AbstractPlan.mk .seqscan [])) true [])
      (AbstractPlan.mk .seqscan []) rfl).1 (by decide),
   (add_materialization_policy.2
      (AbstractExecutor.mk .insert (some (AbstractPlan.mk .insert [])) true [])
      (AbstractPlan.mk .insert []) rfl).2 (by decide)⟩

/-- C8: when the input plan is null, ExecutePlan returns immediately: the
caller's status is untouched (so a caller that starts with zero rows
still sees zero rows), no transaction call of any kind is made, no
Execute() call happens and no teardown event occurs. -/
theorem null_plan_no_effects {Tuple Slot : Type} (convert : Tuple → Option Slot)
    (behavior : ExecBehavior Tuple) (existingTxn : Option Result)
    (pstatus : PelotonStatus Slot) :
    ExecutePlan convert none behavior existingTxn pstatus =
      .ok { pstatus := pstatus, effects := [], executeCalls := 0, destroyed := [] } := rfl

mutual

theorem planSize_skel : ∀ p : AbstractPlan, skelSize (planSkel p) = planSize p
  | .mk ty cs => by
    simp [planSkel, skelSize, planSize, planSizeList_skel cs]

theorem planSizeList_skel : ∀ cs : List AbstractPlan,
    skelSizeList (planSkelList cs) = planSizeList cs
  | [] => by simp [planSkelList, skelSizeList, planSizeList]
  | c :: cs => by
    simp [planSkelList, skelSizeList, planSizeList, planSize_skel c, planSizeList_skel cs]

end

mutual

theorem buildNode_skel : ∀ p : AbstractPlan, allSupported p = true →
    ∃ e : AbstractExecutor, (buildNode p).1 = some e ∧ execSkel e = planSkel p
  | .mk ty cs => by
    intro h
    simp [allSupported] at h
    obtain ⟨ety, hety⟩ := Option.isSome_iff_exists.mp h.1
    refine ⟨AbstractExecutor.mk ety (some (.mk ty cs)) true (buildChildren cs).1, ?_, ?_⟩
    · simp [buildNode, hety]
    · simp [execSkel, planSkel, buildChildren_skel cs h.2]

theorem buildChildren_skel : ∀ cs : List AbstractPlan, allSupportedList cs = true →
    execSkelList (buildChildren cs).1 = planSkelList cs
  | [] => by intro _; simp [buildChildren, execSkelList, planSkelList]
  | c :: cs => by
    intro h
    simp [allSupportedList] at h
    obtain ⟨e, he, hskel⟩ := buildNode_skel c h.1
    simp [buildChildren, he, execSkelList, planSkelList, hskel, buildChildren_skel cs h.2]

end

/-- C4 (amended: restricted to non-null plan trees all of whose tags are
ones the compiler's switch constructs an executor for): the compiled
operator tree has the same node count and shape as the plan tree, except
that exactly one extra synthetic root is added when the original root's
tag is one of MergeJoin, NestedLoopJoin, SequentialScan, IndexScan,
Limit, and none otherwise.  For a plan containing unsupported or Invalid
tags the property fails, because such nodes produce no operator (see the
counterexample). -/
theorem compiled_tree_mirrors_plan (p : AbstractPlan) (h : allSupported p = true) :
    ∃ e : AbstractExecutor,
      AddMaterialization (BuildExecutorTree none (some p)).1 = some (some e) ∧
      (p.GetPlanNodeType ∈ materializedTags →
         execSkel e = .node [planSkel p] ∧ execSize e = planSize p + 1) ∧
      (p.GetPlanNodeType ∉ materializedTags →
         execSkel e = planSkel p ∧ execSize e = planSize p) := by
  obtain ⟨e0, hb, hs⟩ := buildNode_skel p h
  have hroot : (BuildExecutorTree none (some p)).1 = some e0 := by
    simp [BuildExecutorTree, hb]
  have hraw := buildNode_rawNode p e0 hb
  have hpol := add_materialization_policy.2 e0 p hraw
  by_cases hmem : p.GetPlanNodeType ∈ materializedTags
  · refine ⟨AbstractExecutor.mk .materialize none false [e0], ?_, ?_, ?_⟩
    · rw [hroot]; exact hpol.1 hmem
    · intro _
      constructor
      · simp [execSkel, execSkelList, hs]
      · simp [execSize, execSkel, execSkelList, skelSize, skelSizeList, hs, planSize_skel p]
        omega
    · intro hc; exact absurd hmem hc
  · refine ⟨e0, ?_, ?_, ?_⟩
    · rw [hroot]; exact hpol.2 hmem
    · intro hc; exact absurd hc hmem
    · intro _; exact ⟨hs, by simp [execSize, hs, planSize_skel p]⟩

/-- Counterexample to C4 as stated: for the one-node plan whose tag is
Invalid, compilation followed by the materialization policy yields a
null operator tree — zero operator nodes against the plan's one node,
and no synthetic root — so the claim's "same node count and shape up to
one extra synthetic root" fails for plan trees containing unsupported or
invalid tags. -/
theorem compiled_tree_mirrors_plan_cex :
    AddMaterialization (BuildExecutorTree none (some (AbstractPlan.mk .invalid []))).1 =
      some none ∧
    planSize (AbstractPlan.mk .invalid []) = 1 := ⟨rfl, rfl⟩

/-- Witness for C4 (amended) at the spec's concrete scenario: a
single-node SequentialScan plan is supported, its tag is in the
materialized set, and the compiled tree is Materialization over SeqScan
— two nodes for the plan's one. -/
theorem compiled_tree_mirrors_plan_witness :
    ∃ e : AbstractExecutor,
      AddMaterialization
          (BuildExecutorTree none (some (AbstractPlan.mk .seqscan []))).1 =
        some (some e) ∧
      ((AbstractPlan.mk .seqscan []).GetPlanNodeType ∈ materializedTags →
         execSkel e = .node [planSkel (AbstractPlan.mk .seqscan [])] ∧
         execSize e = planSize (AbstractPlan.mk .seqscan []) + 1) ∧
      ((AbstractPlan.mk .seqscan []).GetPlanNodeType ∉ materializedTags →
         execSkel e = planSkel (AbstractPlan.mk .seqscan []) ∧
         execSize e = planSize (AbstractPlan.mk .seqscan [])) :=
  compiled_tree_mirrors_plan (AbstractPlan.mk .seqscan []) (by decide)

theorem destroyNode_ne_nil (p : List Nat) (e : AbstractExecutor) :
    destroyNode p e ≠ [] := by
  cases e; simp [destroyNode]

/-- C2: the cleanup label issues exactly one commit or exactly one abort
if and only if the transaction was implicit (GetPGTransaction found
nothing for the supplied id, so one was started on demand) or
initialization failed; in that case it commits exactly when the
transaction's recorded Result is Success and aborts otherwise.  A
pre-existing transaction with successful initialization gets neither.
Scoped to executions that complete (a compiled root exists and the pull
loop terminates). -/
theorem finalize_commit_abort_discipline {Tuple Slot : Type}
    (convert : Tuple → Option Slot) (p : AbstractPlan) (behavior : ExecBehavior Tuple)
    (existingTxn : Option Result) (pstatus : PelotonStatus Slot)
    (tree : AbstractExecutor) (slots : List Slot) (n : Nat)
    (htree : AddMaterialization (BuildExecutorTree none (some p)).1 = some (some tree))
    (hrun : behavior.initOk = true → pullLoop convert behavior.script [] = some (slots, n)) :
    ∃ o : ExecOutcome Slot,
      ExecutePlan convert (some p) behavior existingTxn pstatus = .ok o ∧
      ((existingTxn = none ∨ behavior.initOk = false) →
         countCloses o.effects = 1 ∧
         (TxnEffect.commit ∈ o.effects ↔ o.pstatus.m_result = .success) ∧
         (TxnEffect.abort ∈ o.effects ↔ o.pstatus.m_result ≠ .success)) ∧
      (existingTxn ≠ none ∧ behavior.initOk = true → countCloses o.effects = 0) := by
  cases hinit : behavior.initOk with
  | false =>
    refine ⟨{ pstatus := { m_result_slots := pstatus.m_result_slots, m_result := .failure },
              effects := TxnEffect.getTransaction ::
                ((if existingTxn = none then [TxnEffect.startTransaction] else []) ++
                  (TxnEffect.setResult .failure :: finalizeEffects true .failure)),
              executeCalls := 0, destroyed := CleanExecutorTree (some tree) }, ?_, ?_, ?_⟩
    · simp [ExecutePlan, htree, hinit]
    · intro _
      cases existingTxn <;>
        simp [countCloses, isCommitOrAbort, finalizeEffects, List.filter_append]
    · rintro ⟨-, hcontra⟩
      simp at hcontra
  | true =>
    have hpull := hrun hinit
    refine ⟨{ pstatus := { m_result_slots := slots, m_result := behavior.resultAfter },
              effects := TxnEffect.getTransaction ::
                ((if existingTxn = none then [TxnEffect.startTransaction] else []) ++
                  finalizeEffects existingTxn.isNone behavior.resultAfter),
              executeCalls := n, destroyed := CleanExecutorTree (some tree) }, ?_, ?_, ?_⟩
    · simp [ExecutePlan, htree, hinit, hpull]
    · rintro (hnone | hcontra)
      · subst hnone
        cases hres : behavior.resultAfter <;>
          simp [countCloses, isCommitOrAbort, finalizeEffects, List.filter_append, hres]
      · simp at hcontra
    · rintro ⟨hsome, -⟩
      cases existingTxn with
      | none => exact absurd rfl hsome
      | some r =>
        simp [countCloses, isCommitOrAbort, finalizeEffects, List.filter_append]

/-- Witness for C2: an implicit transaction (no pre-existing handle)
whose execution records Success is committed exactly once. -/
theorem finalize_commit_abort_discipline_witness :
    ∃ o : ExecOutcome Nat,
      ExecutePlan (fun t : Nat => some t) (some (AbstractPlan.mk .seqscan []))
          { initOk := true, script := [(false, none)], resultAfter := .success }
          none { m_result_slots := [], m_result := .success } = .ok o ∧
      (((none : Option Result) = none ∨ (true : Bool) = false) →
         countCloses o.effects = 1 ∧
         (TxnEffect.commit ∈ o.effects ↔ o.pstatus.m_result = .success) ∧
         (TxnEffect.abort ∈ o.effects ↔ o.pstatus.m_result ≠ .success)) ∧
      ((none : Option Result) ≠ none ∧ (true : Bool) = true → countCloses o.effects = 0) :=
  finalize_commit_abort_discipline (fun t : Nat => some t) (AbstractPlan.mk .seqscan [])
    { initOk := true, script := [(false, none)], resultAfter := .success }
    none { m_result_slots := [], m_result := .success }
    (AbstractExecutor.mk .materialize none false
      [AbstractExecutor.mk .seqscan (some (AbstractPlan.mk .seqscan [])) true []])
    [] 1 rfl (fun _ => rfl)

/-- C3: if Init() on the compiled root returns false, the transaction's
Result is set to Failure, no Execute() pull is attempted, the
caller-visible output is zero rows (the m_result_slots write is skipped
by the jump to cleanup, so a caller whose status starts with zero rows
still sees zero rows), the reported final Result is Failure, and control
still reaches finalization (exactly one close — here an abort — is
issued) and tree teardown (the full teardown event sequence of the
compiled tree is performed). -/
theorem init_failure_behavior {Tuple Slot : Type} (convert : Tuple → Option Slot)
    (p : AbstractPlan) (behavior : ExecBehavior Tuple) (existingTxn : Option Result)
    (pstatus : PelotonStatus Slot) (tree : AbstractExecutor)
    (htree : AddMaterialization (BuildExecutorTree none (some p)).1 = some (some tree))
    (hinit : behavior.initOk = false)
    (hempty : pstatus.m_result_slots = []) :
    ∃ o : ExecOutcome Slot,
      ExecutePlan convert (some p) behavior existingTxn pstatus = .ok o ∧
      TxnEffect.setResult .failure ∈ o.effects ∧
      o.executeCalls = 0 ∧
      o.pstatus.m_result_slots = [] ∧
      o.pstatus.m_result = .failure ∧
      countCloses o.effects = 1 ∧
      o.destroyed = CleanExecutorTree (some tree) ∧
      o.destroyed ≠ [] := by
  refine ⟨{ pstatus := { m_result_slots := pstatus.m_result_slots, m_result := .failure },
            effects := TxnEffect.getTransaction ::
              ((if existingTxn = none then [TxnEffect.startTransaction] else []) ++
                (TxnEffect.setResult .failure :: finalizeEffects true .failure)),
            executeCalls := 0, destroyed := CleanExecutorTree (some tree) },
          ?_, ?_, rfl, hempty, rfl, ?_, rfl, ?_⟩
  · simp [ExecutePlan, htree, hinit]
  · cases existingTxn <;> simp [finalizeEffects]
  · cases existingTxn <;>
      simp [countCloses, isCommitOrAbort, finalizeEffects, List.filter_append]
  · exact destroyNode_ne_nil [] tree

/-- Witness for C3: an Update-rooted plan whose Init() fails, against a
pre-existing transaction and an initially empty status. -/
theorem init_failure_behavior_witness :
    ∃ o : ExecOutcome Nat,
      ExecutePlan (fun t : Nat => some t) (some (AbstractPlan.mk .update []))
          { initOk := false, script := [], resultAfter := .success }
          (some .success) { m_result_slots := [], m_result := .success } = .ok o ∧
      TxnEffect.setResult .failure ∈ o.effects ∧
      o.executeCalls = 0 ∧
      o.pstatus.m_result_slots = [] ∧
      o.pstatus.m_result = .failure ∧
      countCloses o.effects = 1 ∧
      o.destroyed = CleanExecutorTree
        (some (AbstractExecutor.mk .update (some (AbstractPlan.mk .update [])) true [])) ∧
      o.destroyed ≠ [] :=
  init_failure_behavior (fun t : Nat => some t) (AbstractPlan.mk .update [])
    { initOk := false, script := [], resultAfter := .success }
    (some .success) { m_result_slots := [], m_result := .success }
    (AbstractExecutor.mk .update (some (AbstractPlan.mk .update [])) true [])
    rfl rfl rfl

/-- C1 (the code violates the guard the claim asserts): compilation of a
plan tree all of whose tags are unsupported or invalid does yield a null
operator tree — but the execution driver then calls Init() on that null
root with no guard between AddMaterialization and Init(), a null-pointer
dereference, instead of returning zero rows.  Second conjunct: the
concrete single-Invalid-node plan drives ExecutePlan into the null
dereference. -/
theorem unsupported_plan_null_root :
    (∀ p : AbstractPlan, allUnsupported p = true →
        (BuildExecutorTree none (some p)).1 = none) ∧
    ExecutePlan (fun t : Nat => some t) (some (AbstractPlan.mk .invalid []))
        { initOk := true, script := [], resultAfter := .success }
        none { m_result_slots := ([] : List Nat), m_result := .success } =
      .nullDeref := by
  constructor
  · intro p h
    obtain ⟨ty, cs⟩ := p
    simp [allUnsupported, Option.isNone_iff_eq_none] at h
    have hn := buildNode_none_of_unsupported (.mk ty cs)
      (by simpa [AbstractPlan.GetPlanNodeType] using h.1)
    simp [BuildExecutorTree, hn]
  · rfl

/-- Witness for C1's first conjunct: the two-node plan Invalid over an
unsupported-tag child compiles to a null operator tree. -/
theorem unsupported_plan_null_root_witness :
    (BuildExecutorTree none
        (some (AbstractPlan.mk .invalid [AbstractPlan.mk .other []]))).1 = none :=
  unsupported_plan_null_root.1
    (AbstractPlan.mk .invalid [AbstractPlan.mk .other []]) (by decide)

/-! Lemmas about the teardown order. -/

mutual

theorem destroyNode_perm : ∀ (p : List Nat) (e : AbstractExecutor),
    (destroyNode p e).Perm (nodePaths p e)
  | p, .mk ty rn hc cs => by
    simpa [destroyNode, nodePaths] using
      (List.perm_append_singleton p (destroyChildren p 0 cs)).trans
        ((destroyChildren_perm p 0 cs).cons p)

theorem destroyChildren_perm : ∀ (p : List Nat) (i : Nat) (cs : List AbstractExecutor),
    (destroyChildren p i cs).Perm (nodePathsChildren p i cs)
  | p, i, [] => by simp [destroyChildren, nodePathsChildren]
  | p, i, c :: cs => by
    simpa [destroyChildren, nodePathsChildren] using
      (destroyNode_perm (p ++ [i]) c).append (destroyChildren_perm p (i + 1) cs)

end

mutual

theorem nodePaths_shape : ∀ (p : List Nat) (e : AbstractExecutor) (x : List Nat),
    x ∈ nodePaths p e → ∃ s, x = p ++ s
  | p, .mk ty rn hc cs, x => by
    intro hx
    simp [nodePaths] at hx
    rcases hx with rfl | hx
    · exact ⟨[], by simp⟩
    · obtain ⟨j, s, -, rfl⟩ := nodePathsChildren_shape p 0 cs x hx
      exact ⟨j :: s, rfl⟩

theorem nodePathsChildren_shape : ∀ (p : List Nat) (i : Nat) (cs : List AbstractExecutor)
    (x : List Nat), x ∈ nodePathsChildren p i cs → ∃ j s, i ≤ j ∧ x = p ++ j :: s
  | p, i, [], x => by intro hx; simp [nodePathsChildren] at hx
  | p, i, c :: cs, x => by
    intro hx
    simp [nodePathsChildren] at hx
    rcases hx with hx | hx
    · obtain ⟨s, rfl⟩ := nodePaths_shape (p ++ [i]) c x hx
      exact ⟨i, s, le_refl i, by simp⟩
    · obtain ⟨j, s, hj, rfl⟩ := nodePathsChildren_shape p (i + 1) cs x hx
      exact ⟨j, s, by omega, rfl⟩

end

theorem properAncestor_lt_length (q r : List Nat) (h : properAncestor q r) :
    q.length < r.length := by
  obtain ⟨hne, t, ht⟩ := h
  cases t with
  | nil => simp at ht; exact absurd ht hne
  | cons a t =>
    rw [← ht]
    simp [List.length_append]

theorem properAncestor_head (p : List Nat) (a b : Nat) (s1 s2 : List Nat)
    (h : properAncestor (p ++ a :: s1) (p ++ b :: s2)) : a = b := by
  obtain ⟨-, t, ht⟩ := h
  rw [List.append_assoc] at ht
  have h2 := List.append_cancel_left ht
  simp at h2
  exact h2.1

theorem occursBefore_append_right {α : Type} (l l' : List α) (a b : α)
    (h : occursBefore l a b) : occursBefore (l ++ l') a b := by
  obtain ⟨l1, l2, l3, rfl⟩ := h
  exact ⟨l1, l2, l3 ++ l', by simp⟩

theorem occursBefore_append_left {α : Type} (l l' : List α) (a b : α)
    (h : occursBefore l a b) : occursBefore (l' ++ l) a b := by
  obtain ⟨l1, l2, l3, rfl⟩ := h
  exact ⟨l' ++ l1, l2, l3, by simp⟩

theorem occursBefore_mem_singleton {α : Type} (l : List α) (a b : α) (h : a ∈ l) :
    occursBefore (l ++ [b]) a b := by
  obtain ⟨l1, l2, rfl⟩ := List.append_of_mem h
  exact ⟨l1, l2, [], by simp⟩

mutual

theorem destroyNode_order : ∀ (p : List Nat) (e : AbstractExecutor) (q r : List Nat),
    q ∈ nodePaths p e → r ∈ nodePaths p e → properAncestor q r →
    occursBefore (destroyNode p e) r q
  | p, .mk ty rn hc cs, q, r => by
    intro hq hr han
    simp only [destroyNode]
    simp [nodePaths] at hq hr
    rcases hq with rfl | hq
    · rcases hr with rfl | hr
      · exact absurd rfl han.1
      · have hrd : r ∈ destroyChildren q 0 cs :=
          ((destroyChildren_perm q 0 cs).mem_iff).mpr hr
        exact occursBefore_mem_singleton _ r q hrd
    · rcases hr with rfl | hr
      · obtain ⟨j, s, -, rfl⟩ := nodePathsChildren_shape r 0 cs q hq
        have hlen := properAncestor_lt_length _ _ han
        simp [List.length_append] at hlen
      · exact occursBefore_append_right _ [p] r q
          (destroyChildren_order p 0 cs q r hq hr han)

theorem destroyChildren_order : ∀ (p : List Nat) (i : Nat) (cs : List AbstractExecutor)
    (q r : List Nat),
    q ∈ nodePathsChildren p i cs → r ∈ nodePathsChildren p i cs → properAncestor q r →
    occursBefore (destroyChildren p i cs) r q
  | p, i, [], q, r => by intro hq _ _; simp [nodePathsChildren] at hq
  | p, i, c :: cs, q, r => by
    intro hq hr han
    simp only [destroyChildren]
    simp [nodePathsChildren] at hq hr
    rcases hq with hq | hq <;> rcases hr with hr | hr
    · exact occursBefore_append_right _ _ r q
        (destroyNode_order (p ++ [i]) c q r hq hr han)
    · obtain ⟨s1, rfl⟩ := nodePaths_shape (p ++ [i]) c q hq
      obtain ⟨j, s2, hj, rfl⟩ := nodePathsChildren_shape p (i + 1) cs r hr
      have hq2 : (p ++ [i]) ++ s1 = p ++ i :: s1 := by simp
      rw [hq2] at han
      have := properAncestor_head p i j s1 s2 han
      omega
    · obtain ⟨j, s1, hj, rfl⟩ := nodePathsChildren_shape p (i + 1) cs q hq
      obtain ⟨s2, rfl⟩ := nodePaths_shape (p ++ [i]) c r hr
      have hr2 : (p ++ [i]) ++ s2 = p ++ i :: s2 := by simp
      rw [hr2] at han
      have := properAncestor_head p j i s1 s2 han
      omega
    · exact occursBefore_append_left _ (destroyNode (p ++ [i]) c) r q
        (destroyChildren_order p (i + 1) cs q r hq hr han)

end

/-- C10: tree teardown is total on its input.  First conjunct: destroying
a null tree performs no action, so the unconditional teardown at the end
of ExecutePlan is safe even when compilation produced no operators.
Second conjunct: the teardown's delete events are a permutation of the
tree's node paths — every node is destroyed exactly once.  Third
conjunct: all descendants of a node (in particular its children) are
destroyed strictly before the node itself. -/
theorem teardown_postorder_total :
    CleanExecutorTree none = [] ∧
    (∀ e : AbstractExecutor, (CleanExecutorTree (some e)).Perm (nodePaths [] e)) ∧
    (∀ (e : AbstractExecutor) (q r : List Nat),
       q ∈ nodePaths [] e → r ∈ nodePaths [] e → properAncestor q r →
       occursBefore (CleanExecutorTree (some e)) r q) :=
  ⟨rfl, fun e => destroyNode_perm [] e,
   fun e q r hq hr han => destroyNode_order [] e q r hq hr han⟩

/-- Witness for C10 on the two-node tree Materialization over SeqScan:
the root (path nil) is an ancestor of its child (path 0), and the
teardown sequence destroys the child before the root. -/
theorem teardown_postorder_total_witness :
    occursBefore
      (CleanExecutorTree (some (AbstractExecutor.mk .materialize none false
        [AbstractExecutor.mk .seqscan none true []]))) [0] [] :=
  teardown_postorder_total.2.2
    (AbstractExecutor.mk .materialize none false
      [AbstractExecutor.mk .seqscan none true []])
    [] [0] (by decide) (by decide) ⟨by decide, [0], rfl⟩

end PelotonBridge
